import Mathlib

/-!
Verification of `lobbylist.py`: a live-games aggregation service.

We embed the program's pure core in Lean:
* `update_database` — the AggregateStore replace operation (src/lobbylist.py:280-290);
* `parse_location` — the LocationDecoder (src/lobbylist.py:152-198);
* the EntryEnricher loop body of `update_lobby_data` (src/lobbylist.py:302-314);
* the read loop of `LobbyList.get_lobby_entries` (src/lobbylist.py:225-242);
* the `/gameinfo` route handler and the `game_info` backend
  (src/lobbylist.py:322-329, 359-379).

Python compares strings by code points, so the sort key comparison of
`sorted(db, key=lambda g: g['username'] + g['server'])` is lexicographic
comparison of code-point sequences; we model it with `keyLeB` on `List Char`
via `Char.toNat`.  Python's `sorted` is a stable sort by the key;
`List.insertionSort` with the total preorder `entryLE` is also stable, and
any two stable sorts by the same key agree pointwise, so `insertionSort`
is a faithful model of `sorted`.
-/

namespace LobbyList

/-- Lexicographic (code-point) comparison of character sequences: the `<=`
that Python uses on the concatenated-string sort keys. -/
def keyLeB : List Char → List Char → Bool
  | [], _ => true
  | _ :: _, [] => false
  | a :: as, b :: bs =>
    if a.toNat < b.toNat then true
    else if b.toNat < a.toNat then false
    else keyLeB as bs

theorem keyLeB_refl (xs : List Char) : keyLeB xs xs = true := by
  induction xs with
  | nil => rfl
  | cons a as ih => simp [keyLeB, ih]

theorem keyLeB_total (xs ys : List Char) : keyLeB xs ys = true ∨ keyLeB ys xs = true := by
  induction xs generalizing ys with
  | nil => left; rfl
  | cons a as ih =>
    cases ys with
    | nil => right; rfl
    | cons b bs =>
      rcases Nat.lt_trichotomy a.toNat b.toNat with h | h | h
      · left; simp [keyLeB, h]
      · rcases ih bs with h' | h' <;> [left; right] <;> simp [keyLeB, h, h']
      · right; simp [keyLeB, h]

theorem keyLeB_trans {xs ys zs : List Char} (h1 : keyLeB xs ys = true)
    (h2 : keyLeB ys zs = true) : keyLeB xs zs = true := by
  induction xs generalizing ys zs with
  | nil => rfl
  | cons a as ih =>
    cases ys with
    | nil => simp [keyLeB] at h1
    | cons b bs =>
      cases zs with
      | nil => simp [keyLeB] at h2
      | cons c cs =>
        simp only [keyLeB] at h1 h2 ⊢
        split_ifs at h1 h2 ⊢ with hab hba hbc hcb hac hca
        all_goals first | rfl | omega | exact ih h1 h2

/-- A database entry as stored in `DATABASE`: a dict that the store code
reads only through its `username` and `server` keys; all other key/value
pairs are carried opaquely in `rest`. -/
structure GEntry where
  username : String
  server : String
  rest : List (String × String)
deriving DecidableEq, Repr

/-- The sort key of `update_database`: `g['username'] + g['server']`. -/
def entryKey (g : GEntry) : String :=
  g.username ++ g.server

/-- The pair `(username, server)` that the spec declares to be the identity
key of an entry. -/
def idKey (g : GEntry) : String × String :=
  (g.username, g.server)

/-- The comparison `sorted` performs between two entries given the key
function `lambda g: g['username'] + g['server']`. -/
def entryLE (a b : GEntry) : Prop :=
  keyLeB (entryKey a).data (entryKey b).data = true

instance : DecidableRel entryLE := fun a b =>
  inferInstanceAs (Decidable (keyLeB (entryKey a).data (entryKey b).data = true))

instance : IsTotal GEntry entryLE :=
  ⟨fun a b => keyLeB_total (entryKey a).data (entryKey b).data⟩

instance : IsTrans GEntry entryLE :=
  ⟨fun _ _ _ h1 h2 => keyLeB_trans h1 h2⟩

/-- `update_database(new_entries, server)` (src/lobbylist.py:280-290), as a
pure function of the previous `DATABASE` value: drop the existing entries of
`server`, append the batch, stable-sort by `username + server`. -/
def update_database (new_entries : List GEntry) (server : String) (db : List GEntry) : List GEntry :=
  let new_database := db.filter (fun g => g.server != server)
  let new_database := new_database ++ new_entries
  new_database.insertionSort entryLE

/-- A sequence of `replace(server, batch)` operations applied in order,
starting from a given database (the program starts from `DATABASE = []`). -/
def applyOps (ops : List (String × List GEntry)) (db : List GEntry) : List GEntry :=
  ops.foldl (fun acc op => update_database op.2 op.1 acc) db

example :
    update_database [⟨"bob", "cao", []⟩] "cao" [⟨"ann", "cbro", []⟩] =
      [⟨"ann", "cbro", []⟩, ⟨"bob", "cao", []⟩] := by decide

example :
    update_database [⟨"bob", "cao", [("idle", "0")]⟩, ⟨"bob", "cao", [("idle", "1")]⟩] "cao" [] =
      [⟨"bob", "cao", [("idle", "0")]⟩, ⟨"bob", "cao", [("idle", "1")]⟩] := by decide

section StableSortLemmas

variable {α : Type} (r : α → α → Prop) [DecidableRel r]

theorem orderedInsert_eq_cons_of_forall {a : α} {l : List α} (h : ∀ c ∈ l, r a c) :
    l.orderedInsert r a = a :: l := by
  cases l with
  | nil => rfl
  | cons c cs => exact List.orderedInsert_of_le r cs (h c (List.mem_cons_self c cs))

theorem filter_orderedInsert_pos [IsTrans α r] (p : α → Bool) {a : α} {l : List α}
    (hl : l.Sorted r) (hpa : p a = true) :
    (l.orderedInsert r a).filter p = (l.filter p).orderedInsert r a := by
  induction l with
  | nil => simp [List.orderedInsert, hpa]
  | cons b m ih =>
    rcases List.sorted_cons.mp hl with ⟨hb, hm⟩
    by_cases hab : r a b
    · rw [List.orderedInsert_of_le r m hab]
      by_cases hpb : p b
      · simp only [List.filter_cons, hpa, hpb, if_pos, if_true]
        rw [List.orderedInsert_of_le r _ hab]
      · simp only [List.filter_cons, hpa, hpb, if_true, if_false, Bool.false_eq_true]
        rw [orderedInsert_eq_cons_of_forall r]
        intro c hc
        exact Trans.trans hab (hb c (List.mem_of_mem_filter hc))
    · simp only [List.orderedInsert, if_neg hab, List.filter_cons]
      by_cases hpb : p b
      · simp only [hpb, if_true, List.filter_cons, ih hm]
        rw [List.orderedInsert, if_neg hab]
      · simp only [hpb, Bool.false_eq_true, if_false, ih hm]

theorem filter_orderedInsert_neg (p : α → Bool) {a : α} {l : List α} (hpa : p a = false) :
    (l.orderedInsert r a).filter p = l.filter p := by
  induction l with
  | nil => simp [List.orderedInsert, hpa]
  | cons b m ih =>
    by_cases hab : r a b
    · rw [List.orderedInsert_of_le r m hab]
      simp [List.filter_cons, hpa]
    · simp only [List.orderedInsert, if_neg hab, List.filter_cons, ih]

theorem filter_insertionSort [IsTotal α r] [IsTrans α r] (p : α → Bool) (l : List α) :
    (l.insertionSort r).filter p = (l.filter p).insertionSort r := by
  induction l with
  | nil => rfl
  | cons a m ih =>
    by_cases hpa : p a
    · rw [List.insertionSort, filter_orderedInsert_pos r p (List.sorted_insertionSort r m) hpa, ih]
      simp [List.filter_cons, hpa, List.insertionSort]
    · rw [List.insertionSort, filter_orderedInsert_neg r p (by simpa using hpa), ih]
      simp [List.filter_cons, hpa]

theorem orderedInsert_comm [IsTotal α r] [IsTrans α r] {a c : α} (hac : ¬r a c)
    (m : List α) :
    (m.orderedInsert r a).orderedInsert r c = (m.orderedInsert r c).orderedInsert r a := by
  have hca : r c a := (IsTotal.total a c).resolve_left hac
  induction m with
  | nil =>
    simp only [List.orderedInsert]
    rw [if_pos hca, if_neg hac]
  | cons d m' ih =>
    by_cases had : r a d <;> by_cases hcd : r c d
    · simp only [List.orderedInsert, had, hcd, hca, hac, ite_true, ite_false]
    · exact absurd (Trans.trans hca had) hcd
    · simp only [List.orderedInsert, had, hcd, hca, hac, ite_true, ite_false]
    · simp only [List.orderedInsert, had, hcd, hac, ite_true, ite_false, ih]

theorem insertionSort_append (F X : List α) :
    (F ++ X).insertionSort r = F.foldr (fun a acc => acc.orderedInsert r a) (X.insertionSort r) := by
  induction F with
  | nil => rfl
  | cons a F' ih =>
    simp only [List.cons_append, List.insertionSort, List.foldr_cons, List.append_eq, ih]

theorem insertionSort_orderedInsert_append [IsTotal α r] [IsTrans α r] (a : α)
    (m bs : List α) :
    ((m.orderedInsert r a) ++ bs).insertionSort r = ((m ++ bs).insertionSort r).orderedInsert r a := by
  induction m with
  | nil => rfl
  | cons c m' ih =>
    by_cases hac : r a c
    · rw [List.orderedInsert_of_le r m' hac]
      rfl
    · simp only [List.orderedInsert, hac, ite_false, List.cons_append, List.insertionSort,
        List.append_eq, ih]
      exact orderedInsert_comm r hac _

theorem insertionSort_idem_append [IsTotal α r] [IsTrans α r] (D bs : List α) :
    ((D.insertionSort r) ++ bs).insertionSort r = (D ++ bs).insertionSort r := by
  induction D with
  | nil => rfl
  | cons d D' ih =>
    simp only [List.insertionSort, List.cons_append, List.append_eq]
    rw [insertionSort_orderedInsert_append r d (D'.insertionSort r) bs, ih]

theorem insertionSort_middle [IsTotal α r] [IsTrans α r] {a : α} {m : List α}
    (h : ∀ y ∈ m, ¬(r a y ∧ r y a)) (rest : List α) :
    (m ++ a :: rest).insertionSort r = ((m ++ rest).insertionSort r).orderedInsert r a := by
  induction m with
  | nil => rfl
  | cons y m' ih =>
    have hy := h y (List.mem_cons_self y m')
    have hm' : ∀ z ∈ m', ¬(r a z ∧ r z a) := fun z hz => h z (List.mem_cons_of_mem y hz)
    simp only [List.cons_append, List.insertionSort, List.append_eq, ih hm']
    by_cases hay : r a y
    · have hya : ¬r y a := fun hya => hy ⟨hay, hya⟩
      exact (orderedInsert_comm r hya _).symm
    · exact orderedInsert_comm r hay _

theorem insertionSort_append_swap_of_no_tie [IsTotal α r] [IsTrans α r] {X Y : List α}
    (h : ∀ x ∈ X, ∀ y ∈ Y, ¬(r x y ∧ r y x)) :
    (X ++ Y).insertionSort r = (Y ++ X).insertionSort r := by
  induction X with
  | nil => rw [List.append_nil, List.nil_append]
  | cons a X' ih =>
    have ha' : ∀ y ∈ Y, ¬(r a y ∧ r y a) := h a (List.mem_cons_self a X')
    have hX' : ∀ x ∈ X', ∀ y ∈ Y, ¬(r x y ∧ r y x) :=
      fun x hx => h x (List.mem_cons_of_mem a hx)
    simp only [List.cons_append, List.insertionSort, List.append_eq, ih hX']
    rw [insertionSort_middle r ha' X']

end StableSortLemmas

theorem keyLeB_antisymm : ∀ {xs ys : List Char}, keyLeB xs ys = true →
    keyLeB ys xs = true → xs = ys
  | [], [], _, _ => rfl
  | [], _ :: _, _, h2 => by simp [keyLeB] at h2
  | _ :: _, [], h1, _ => by simp [keyLeB] at h1
  | a :: as, b :: bs, h1, h2 => by
    simp only [keyLeB] at h1 h2
    split_ifs at h1 h2 with hab hba
    · exact absurd hba (by omega)
    · rw [keyLeB_antisymm h1 h2, Char.ext (UInt32.ext (by omega : a.toNat = b.toNat))]

theorem entryKey_eq_of_le_le {x y : GEntry} (h1 : entryLE x y) (h2 : entryLE y x) :
    entryKey x = entryKey y :=
  congrArg String.mk (keyLeB_antisymm h1 h2)

theorem update_database_def (b : List GEntry) (s : String) (db : List GEntry) :
    update_database b s db = ((db.filter fun g => g.server != s) ++ b).insertionSort entryLE :=
  rfl

theorem update_database_perm (b : List GEntry) (s : String) (db : List GEntry) :
    List.Perm (update_database b s db) ((db.filter fun g => g.server != s) ++ b) :=
  List.perm_insertionSort entryLE _

/-- C3: after every `replace(server, batch)` the aggregate — hence every
snapshot of it, since `/games` serves `DATABASE` as is — is sorted ascending
by the concatenation `username + server` (src/lobbylist.py:287-290): it is
pairwise sorted, and in particular every adjacent pair `e1` before `e2`
satisfies `e1.username + e1.server <= e2.username + e2.server`
lexicographically.  This holds for arbitrary previous database contents and
arbitrary batches. -/
theorem c3_snapshot_sorted (new_entries : List GEntry) (server : String) (db : List GEntry) :
    ((update_database new_entries server db).Pairwise fun e1 e2 =>
        keyLeB (e1.username ++ e1.server).data (e2.username ++ e2.server).data = true) ∧
      ((update_database new_entries server db).Chain' fun e1 e2 =>
        keyLeB (e1.username ++ e1.server).data (e2.username ++ e2.server).data = true) := by
  have h : List.Sorted entryLE (update_database new_entries server db) :=
    List.sorted_insertionSort entryLE _
  exact ⟨h, List.Pairwise.chain' h⟩

theorem update_database_twice {A B : String} (bA bB db : List GEntry) (hAB : A ≠ B)
    (hA : ∀ e ∈ bA, e.server = A) :
    update_database bB B (update_database bA A db) =
      ((((db.filter fun g => g.server != A).filter fun g => g.server != B) ++
        (bA ++ bB)).insertionSort entryLE) := by
  have hbA : bA.filter (fun g => g.server != B) = bA := by
    apply List.filter_eq_self.mpr
    intro e he
    simp [hA e he, hAB]
  rw [update_database_def bB B, update_database_def bA A, filter_insertionSort,
    List.filter_append, hbA, insertionSort_idem_append, List.append_assoc]

/-- Restricting a freshly sorted database to one server:
the sort commutes with the filter, and the filter keeps exactly the
middle segment when the outer segments belong to other servers. -/
theorem filter_server_insertionSort {C : String} {F X Y : List GEntry}
    (hF : ∀ e ∈ F, e.server ≠ C) (hX : ∀ e ∈ X, e.server = C)
    (hY : ∀ e ∈ Y, e.server ≠ C) :
    ((F ++ (X ++ Y)).insertionSort entryLE).filter (fun g => g.server == C) =
      X.insertionSort entryLE := by
  rw [filter_insertionSort]
  congr 1
  rw [List.filter_append, List.filter_append]
  have h1 : F.filter (fun g => g.server == C) = [] := by
    simp only [List.filter_eq_nil_iff]
    intro e he
    simpa using hF e he
  have h2 : X.filter (fun g => g.server == C) = X :=
    List.filter_eq_self.mpr fun e he => by simp [hX e he]
  have h3 : Y.filter (fun g => g.server == C) = [] := by
    simp only [List.filter_eq_nil_iff]
    intro e he
    simpa using hY e he
  rw [h1, h2, h3, List.nil_append, List.append_nil]

/-- C2 (amended): `replace(A, bA)` and `replace(B, bB)` for distinct
servers `A ≠ B`, with each batch tagged with its server (as the enrichment
loop guarantees), performed in either order over any starting aggregate:
the two results are permutations of each other; in both orders the snapshot
restricted to server `A` is exactly the stable sort of `bA` and the
restriction to `B` exactly the stable sort of `bB` — no entry of either
batch is lost or duplicated; and the two results are literally the same
list whenever no entry of `bA` shares its `username + server` sort key with
an entry of `bB` (in particular, always, for the configured server names,
none of which is a suffix of another).  Only the relative order of
cross-batch entries with colliding sort keys can differ — see the
counterexample. -/
theorem c2_replace_comm {A B : String} (bA bB db : List GEntry) (hAB : A ≠ B)
    (hA : ∀ e ∈ bA, e.server = A) (hB : ∀ e ∈ bB, e.server = B) :
    List.Perm (update_database bB B (update_database bA A db))
        (update_database bA A (update_database bB B db)) ∧
      ((update_database bB B (update_database bA A db)).filter
        (fun g => g.server == A) = bA.insertionSort entryLE) ∧
      ((update_database bA A (update_database bB B db)).filter
        (fun g => g.server == A) = bA.insertionSort entryLE) ∧
      ((update_database bB B (update_database bA A db)).filter
        (fun g => g.server == B) = bB.insertionSort entryLE) ∧
      ((update_database bA A (update_database bB B db)).filter
        (fun g => g.server == B) = bB.insertionSort entryLE) ∧
      ((∀ x ∈ bA, ∀ y ∈ bB, entryKey x ≠ entryKey y) →
        update_database bB B (update_database bA A db) =
          update_database bA A (update_database bB B db)) := by
  have hr1 := update_database_twice bA bB db hAB hA
  have hr2 := update_database_twice bB bA db (Ne.symm hAB) hB
  have hFF : ((db.filter fun g => g.server != B).filter fun g => g.server != A) =
      ((db.filter fun g => g.server != A).filter fun g => g.server != B) := by
    rw [List.filter_filter, List.filter_filter]
    apply List.filter_congr
    intro e _
    exact Bool.and_comm _ _
  rw [hFF] at hr2
  set F : List GEntry := (db.filter fun g => g.server != A).filter fun g => g.server != B with hF
  have hFA : ∀ e ∈ F, e.server ≠ A := by
    intro e he
    have := (List.mem_filter.mp (List.mem_of_mem_filter he)).2
    simpa using this
  have hFB : ∀ e ∈ F, e.server ≠ B := by
    intro e he
    have := (List.mem_filter.mp he).2
    simpa using this
  have hbAB : ∀ e ∈ bA, e.server ≠ B := fun e he => by rw [hA e he]; exact hAB
  have hbBA : ∀ e ∈ bB, e.server ≠ A := fun e he => by rw [hB e he]; exact Ne.symm hAB
  refine ⟨?_, ?_, ?_, ?_, ?_, ?_⟩
  · rw [hr1, hr2]
    exact (List.perm_insertionSort entryLE _).trans
      ((List.perm_append_comm.append_left F).trans
        (List.perm_insertionSort entryLE _).symm)
  · rw [hr1]
    exact filter_server_insertionSort hFA hA hbBA
  · rw [hr2]
    rw [filter_insertionSort, List.filter_append, List.filter_append]
    have h1 : F.filter (fun g => g.server == A) = [] := by
      simp only [List.filter_eq_nil_iff]
      intro e he
      simpa using hFA e he
    have h2 : bB.filter (fun g => g.server == A) = [] := by
      simp only [List.filter_eq_nil_iff]
      intro e he
      simpa using hbBA e he
    have h3 : bA.filter (fun g => g.server == A) = bA :=
      List.filter_eq_self.mpr fun e he => by simp [hA e he]
    rw [h1, h2, h3, List.nil_append, List.nil_append]
  · rw [hr1]
    rw [filter_insertionSort, List.filter_append, List.filter_append]
    have h1 : F.filter (fun g => g.server == B) = [] := by
      simp only [List.filter_eq_nil_iff]
      intro e he
      simpa using hFB e he
    have h2 : bA.filter (fun g => g.server == B) = [] := by
      simp only [List.filter_eq_nil_iff]
      intro e he
      simpa using hbAB e he
    have h3 : bB.filter (fun g => g.server == B) = bB :=
      List.filter_eq_self.mpr fun e he => by simp [hB e he]
    rw [h1, h2, h3, List.nil_append, List.nil_append]
  · rw [hr2]
    exact filter_server_insertionSort hFB hB hbAB
  · intro hnt
    rw [hr1, hr2, insertionSort_append entryLE F (bA ++ bB),
      insertionSort_append entryLE F (bB ++ bA),
      insertionSort_append_swap_of_no_tie entryLE
        fun x hx y hy hc => hnt x hx y hy (entryKey_eq_of_le_le hc.1 hc.2)]

/-- C2 witness: a concrete instance with the two configured servers `cao`
and `cbro`, including the no-collision branch. -/
theorem c2_replace_comm_witness :
    ("cao" ≠ "cbro" ∧ (∀ e ∈ [(⟨"bob", "cao", []⟩ : GEntry)], e.server = "cao") ∧
        ∀ e ∈ [(⟨"ann", "cbro", []⟩ : GEntry)], e.server = "cbro") ∧
      (List.Perm
          (update_database [⟨"ann", "cbro", []⟩] "cbro"
            (update_database [⟨"bob", "cao", []⟩] "cao" [⟨"zed", "cue", []⟩]))
          (update_database [⟨"bob", "cao", []⟩] "cao"
            (update_database [⟨"ann", "cbro", []⟩] "cbro" [⟨"zed", "cue", []⟩])) ∧
        ((update_database [⟨"ann", "cbro", []⟩] "cbro"
            (update_database [⟨"bob", "cao", []⟩] "cao" [⟨"zed", "cue", []⟩])).filter
          (fun g => g.server == "cao") = [(⟨"bob", "cao", []⟩ : GEntry)].insertionSort entryLE) ∧
        ((update_database [⟨"bob", "cao", []⟩] "cao"
            (update_database [⟨"ann", "cbro", []⟩] "cbro" [⟨"zed", "cue", []⟩])).filter
          (fun g => g.server == "cao") = [(⟨"bob", "cao", []⟩ : GEntry)].insertionSort entryLE) ∧
        ((update_database [⟨"ann", "cbro", []⟩] "cbro"
            (update_database [⟨"bob", "cao", []⟩] "cao" [⟨"zed", "cue", []⟩])).filter
          (fun g => g.server == "cbro") = [(⟨"ann", "cbro", []⟩ : GEntry)].insertionSort entryLE) ∧
        ((update_database [⟨"bob", "cao", []⟩] "cao"
            (update_database [⟨"ann", "cbro", []⟩] "cbro" [⟨"zed", "cue", []⟩])).filter
          (fun g => g.server == "cbro") = [(⟨"ann", "cbro", []⟩ : GEntry)].insertionSort entryLE) ∧
        ((∀ x ∈ [(⟨"bob", "cao", []⟩ : GEntry)], ∀ y ∈ [(⟨"ann", "cbro", []⟩ : GEntry)],
            entryKey x ≠ entryKey y) →
          update_database [⟨"ann", "cbro", []⟩] "cbro"
              (update_database [⟨"bob", "cao", []⟩] "cao" [⟨"zed", "cue", []⟩]) =
            update_database [⟨"bob", "cao", []⟩] "cao"
              (update_database [⟨"ann", "cbro", []⟩] "cbro" [⟨"zed", "cue", []⟩]))) :=
  ⟨⟨by decide, by decide, by decide⟩,
    c2_replace_comm [⟨"bob", "cao", []⟩] [⟨"ann", "cbro", []⟩] [⟨"zed", "cue", []⟩]
      (by decide) (by decide) (by decide)⟩

/-- C2 counterexample: with server names `"b"` and `"ab"` (the store accepts
any server identifier) and usernames `"xa"` and `"x"`, the two single-entry
batches collide on the sort key `"xab"`, and the stable sort then preserves
insertion order: the two replace orders yield different aggregates, refuting
the unqualified claim that either order gives the same resulting aggregate. -/
theorem c2_order_dependent :
    ("b" : String) ≠ "ab" ∧
      update_database [⟨"x", "ab", []⟩] "ab"
          (update_database [⟨"xa", "b", []⟩] "b" []) =
        [⟨"xa", "b", []⟩, ⟨"x", "ab", []⟩] ∧
      update_database [⟨"xa", "b", []⟩] "b"
          (update_database [⟨"x", "ab", []⟩] "ab" []) =
        [⟨"x", "ab", []⟩, ⟨"xa", "b", []⟩] ∧
      update_database [⟨"x", "ab", []⟩] "ab"
          (update_database [⟨"xa", "b", []⟩] "b" []) ≠
        update_database [⟨"xa", "b", []⟩] "b"
          (update_database [⟨"x", "ab", []⟩] "ab" []) :=
  ⟨by decide, by decide, by decide, by decide⟩

/-- C4: `replace` is idempotent per server.  A batch produced by
`update_lobby_data` always carries `entry['server'] = lister.server_abbr`
(src/lobbylist.py:304), which is the hypothesis `hb`; under it, replaying
`update_database(b, s)` twice yields literally the same database list as
applying it once. -/
theorem c4_replace_idempotent (b : List GEntry) (s : String) (db : List GEntry)
    (hb : ∀ e ∈ b, e.server = s) :
    update_database b s (update_database b s db) = update_database b s db := by
  have hbnil : b.filter (fun g => g.server != s) = [] := by
    simp only [List.filter_eq_nil_iff]
    intro e he
    simp [hb e he]
  have hfilter : (update_database b s db).filter (fun g => g.server != s) =
      (db.filter fun g => g.server != s).insertionSort entryLE := by
    rw [update_database_def, filter_insertionSort, List.filter_append, hbnil,
      List.append_nil, List.filter_filter]
    congr 1
    apply List.filter_congr
    intro e _
    simp [Bool.and_self]
  rw [update_database_def b s (update_database b s db), hfilter,
    insertionSort_idem_append, ← update_database_def]

theorem nodup_idKey_of_nodup_username {b : List GEntry} {s : String}
    (hb : (b.map GEntry.username).Nodup) (hbs : ∀ e ∈ b, e.server = s) :
    (b.map idKey).Nodup := by
  induction b with
  | nil => simp
  | cons e t ih =>
    simp only [List.map_cons, List.nodup_cons] at hb ⊢
    refine ⟨?_, ih hb.2 fun x hx => hbs x (List.mem_cons_of_mem e hx)⟩
    intro hmem
    rcases List.mem_map.mp hmem with ⟨x, hx, hxe⟩
    exact hb.1 (List.mem_map.mpr ⟨x, hx, congrArg Prod.fst hxe⟩)

theorem update_database_idKey_nodup {b : List GEntry} {s : String} {db : List GEntry}
    (hdb : (db.map idKey).Nodup) (hb : (b.map GEntry.username).Nodup)
    (hbs : ∀ e ∈ b, e.server = s) :
    ((update_database b s db).map idKey).Nodup := by
  rw [List.Perm.nodup_iff ((update_database_perm b s db).map idKey),
    List.map_append, List.nodup_append]
  refine ⟨hdb.sublist ((List.filter_sublist db).map idKey),
    nodup_idKey_of_nodup_username hb hbs, ?_⟩
  intro k hk1 hk2
  rcases List.mem_map.mp hk1 with ⟨g, hgf, hgk⟩
  rcases List.mem_map.mp hk2 with ⟨e, heb, hek⟩
  have hgs : g.server ≠ s := by
    have := (List.mem_filter.mp hgf).2
    simpa using this
  apply hgs
  have : g.server = e.server := by
    have := hgk.trans hek.symm
    exact congrArg Prod.snd this
  rw [this, hbs e heb]

theorem applyOps_idKey_nodup (ops : List (String × List GEntry)) (db : List GEntry)
    (hdb : (db.map idKey).Nodup)
    (hops : ∀ op ∈ ops, ((op.2.map GEntry.username).Nodup ∧ ∀ e ∈ op.2, e.server = op.1)) :
    ((applyOps ops db).map idKey).Nodup := by
  induction ops generalizing db with
  | nil => exact hdb
  | cons op rest ih =>
    have hop := hops op (List.mem_cons_self op rest)
    exact ih (update_database op.2 op.1 db)
      (update_database_idKey_nodup hdb hop.1 hop.2)
      fun o ho => hops o (List.mem_cons_of_mem op ho)

/-- C1 (amended): after any sequence of `replace(server, batch)` operations
starting from the empty aggregate, no two entries — distinct or not — share
the pair `(username, server)`, provided each batch carries pairwise-distinct
usernames and each of its entries is tagged with the replacing server (as
`update_lobby_data` guarantees at src/lobbylist.py:304).  Without the
distinct-usernames proviso the invariant fails, see the counterexample:
`update_database` performs no deduplication inside a batch. -/
theorem c1_unique_key (ops : List (String × List GEntry))
    (hops : ∀ op ∈ ops, ((op.2.map GEntry.username).Nodup ∧ ∀ e ∈ op.2, e.server = op.1)) :
    (applyOps ops []).Pairwise fun e1 e2 => (e1.username, e1.server) ≠ (e2.username, e2.server) := by
  have h := applyOps_idKey_nodup ops [] (by simp) hops
  rw [List.Nodup, List.pairwise_map] at h
  exact h

/-- C1 witness: a concrete two-server run satisfying the provisos. -/
theorem c1_unique_key_witness :
    (∀ op ∈ [("cao", [(⟨"bob", "cao", []⟩ : GEntry), ⟨"ann", "cao", []⟩]),
        ("cbro", [(⟨"bob", "cbro", []⟩ : GEntry)])],
      ((op.2.map GEntry.username).Nodup ∧ ∀ e ∈ op.2, e.server = op.1)) ∧
      (applyOps [("cao", [(⟨"bob", "cao", []⟩ : GEntry), ⟨"ann", "cao", []⟩]),
          ("cbro", [(⟨"bob", "cbro", []⟩ : GEntry)])] []).Pairwise
        fun e1 e2 => (e1.username, e1.server) ≠ (e2.username, e2.server) :=
  ⟨by decide, c1_unique_key _ (by decide)⟩

/-- C1 counterexample: a single `replace` from the empty aggregate whose
batch repeats a username yields two distinct entries sharing
`(username, server)` — the code appends the whole batch without
deduplicating, so the claimed invariant fails for batches with repeated
usernames. -/
theorem c1_not_unique_for_dup_batch :
    applyOps [("cao", [(⟨"bob", "cao", [("idle", "0")]⟩ : GEntry),
        ⟨"bob", "cao", [("idle", "1")]⟩])] [] =
      [⟨"bob", "cao", [("idle", "0")]⟩, ⟨"bob", "cao", [("idle", "1")]⟩] ∧
      (⟨"bob", "cao", [("idle", "0")]⟩ : GEntry) ≠ ⟨"bob", "cao", [("idle", "1")]⟩ ∧
      ((⟨"bob", "cao", [("idle", "0")]⟩ : GEntry).username,
          (⟨"bob", "cao", [("idle", "0")]⟩ : GEntry).server) =
        ((⟨"bob", "cao", [("idle", "1")]⟩ : GEntry).username,
          (⟨"bob", "cao", [("idle", "1")]⟩ : GEntry).server) := by
  refine ⟨by decide, by decide, by decide⟩

/-- C4 witness: a concrete instance of the idempotence theorem. -/
theorem c4_replace_idempotent_witness :
    (∀ e ∈ [(⟨"bob", "cao", [("idle", "0")]⟩ : GEntry)], e.server = "cao") ∧
      update_database [⟨"bob", "cao", [("idle", "0")]⟩] "cao"
          (update_database [⟨"bob", "cao", [("idle", "0")]⟩] "cao" [⟨"ann", "cbro", []⟩]) =
        update_database [⟨"bob", "cao", [("idle", "0")]⟩] "cao" [⟨"ann", "cbro", []⟩] :=
  ⟨by decide, c4_replace_idempotent _ _ [⟨"ann", "cbro", []⟩] (by decide)⟩

/-! ## LocationDecoder: `parse_location` (src/lobbylist.py:152-198) -/

/-- The apostrophe character, written via its code point. -/
def apos : Char := Char.ofNat 39

/-- The `BRANCH_NAMES` dict (src/lobbylist.py:37-70), as an association
list; `BRANCH_NAMES.get(br, br)` becomes `(BRANCH_NAMES.lookup br).getD br`. -/
def BRANCH_NAMES : List (String × String) := [
  ("D", "Dungeon"),
  ("Orc", "Orcish Mines"),
  ("Elf", "Elven Halls"),
  ("Lair", "Lair of the Beasts"),
  ("Depths", "Depths"),
  ("Swamp", "Swamp"),
  ("Shoals", "Shoals"),
  ("Spider", "Spider Nest"),
  ("Snake", "Snake Pit"),
  ("Slime", "Slime Pits"),
  ("Vaults", "Vaults"),
  ("Crypt", "Crypt"),
  ("Tomb", "Tomb of the Ancients"),
  ("Dis", "Iron City of Dis"),
  ("Geh", "Gehenna"),
  ("Coc", "Cocytus"),
  ("Tar", "Tartarus"),
  ("Zot", "Realm of Zot"),
  ("Abyss", "Abyss"),
  ("Zig", "Ziggurat"),
  ("Lab", "Labyrinth"),
  ("Bazaar", "Bazaar"),
  ("WizLab", "Wizard" ++ String.singleton apos ++ "s Laboratory"),
  ("Sewer", "Sewer"),
  ("Bailey", "Bailey"),
  ("Ossuary", "Ossuary"),
  ("IceCv", "Ice Cave"),
  ("Volcano", "Volcano"),
  ("Hell", "Vestibule of Hell"),
  ("Temple", "Ecumenical Temple"),
  ("Pan", "Pandemonium"),
  ("Trove", "Treasure Trove")]

/-- Python's `str.split(sep)` for a single-character separator, on the
character list of the string: always returns at least one piece, and one
more piece per separator occurrence. -/
def splitOnChar (c : Char) : List Char → List (List Char)
  | [] => [[]]
  | a :: rest =>
    match splitOnChar c rest with
    | [] => [[a]]
    | h :: t => if a = c then [] :: h :: t else (a :: h) :: t

theorem splitOnChar_ne_nil (c : Char) (l : List Char) : splitOnChar c l ≠ [] := by
  cases l with
  | nil => simp [splitOnChar]
  | cons a rest =>
    simp only [splitOnChar]
    split
    · simp
    · split <;> simp

theorem splitOnChar_of_not_mem {c : Char} {l : List Char} (h : c ∉ l) :
    splitOnChar c l = [l] := by
  induction l with
  | nil => rfl
  | cons a rest ih =>
    have hac : a ≠ c := fun hac => h (hac ▸ List.mem_cons_self a rest)
    have hrest : c ∉ rest := fun hr => h (List.mem_cons_of_mem a hr)
    simp only [splitOnChar, ih hrest]
    rw [if_neg hac]

theorem lookup_eq_none_of_not_mem_keys {l : List (String × String)} {k : String}
    (h : k ∉ l.map Prod.fst) : l.lookup k = none := by
  induction l with
  | nil => rfl
  | cons p t ih =>
    simp only [List.map_cons, List.mem_cons, not_or] at h
    have hf : (k == p.1) = false := by simpa using h.1
    simp only [List.lookup, hf]
    exact ih h.2

/-- The branch code of a raw location: `location.split(':', 1)[0]` when a
colon is present, else the whole string. -/
def branch_code (location : String) : String :=
  match splitOnChar ':' location.data with
  | p0 :: _ :: _ => ⟨p0⟩
  | _ => location

/-- The branch level: `location.split(':')[1]` when a colon is present,
else `"0"`. -/
def branch_level (location : String) : String :=
  match splitOnChar ':' location.data with
  | _ :: p1 :: _ => ⟨p1⟩
  | _ => "0"

/-- The `humanreadable` cascade of `parse_location`
(src/lobbylist.py:174-196), verbatim: one membership test per branch
category, falling through to the `'at <raw code>'` fallback. -/
def location_phrase (location br branchlevel branch : String) : String :=
  if br ∈ (["D", "Orc", "Elf", "Lair", "Depths", "Swamp", "Shoals", "Slime",
      "Snake", "Spider", "Vaults", "Crypt", "Tomb", "Dis", "Zot",
      "Abyss"] : List String) then
    if branchlevel ≠ "0" then "on level " ++ branchlevel ++ " of the " ++ branch
    else "in the " ++ branch
  else if br ∈ (["Tar", "Geh", "Coc"] : List String) then
    "on level " ++ branchlevel ++ " of " ++ branch
  else if br ∈ (["Zig"] : List String) then
    "on level " ++ branchlevel ++ " of a " ++ branch
  else if br ∈ (["Lab", "Bazaar", "WizLab", "Sewer", "Bailey", "Volcano",
      "Trove", "Salt"] : List String) then
    "in a " ++ branch
  else if br ∈ (["Ossuary", "IceCv"] : List String) then
    "in an " ++ branch
  else if br ∈ (["Hell", "Temple"] : List String) then
    "in the " ++ branch
  else if br ∈ (["Pan"] : List String) then
    "in " ++ branch
  else
    "at " ++ location

/-- `parse_location` (src/lobbylist.py:152-198): decode a raw location
string into `(branch, branchlevel, humanreadable)`.  Pure and total by
construction. -/
def parse_location (location : String) : String × String × String :=
  let br := branch_code location
  let branchlevel := branch_level location
  let branch := (BRANCH_NAMES.lookup br).getD br
  (branch, branchlevel, location_phrase location br branchlevel branch)

/-- Every branch code the decoder recognizes anywhere: the keys of
`BRANCH_NAMES` plus `Salt`, which appears only in the indefinite-article
membership test. -/
def knownBranchCodes : List String :=
  BRANCH_NAMES.map Prod.fst ++ ["Salt"]

/-- C6: the decoding table, exactly as specified, on the six sample
inputs — including the unknown-code fallback. -/
theorem c6_decoding_table :
    parse_location "D:8" = ("Dungeon", "8", "on level 8 of the Dungeon") ∧
      parse_location "Pan" = ("Pandemonium", "0", "in Pandemonium") ∧
      parse_location "Zig:3" = ("Ziggurat", "3", "on level 3 of a Ziggurat") ∧
      parse_location "Temple" = ("Ecumenical Temple", "0", "in the Ecumenical Temple") ∧
      parse_location "Tar:4" = ("Tartarus", "4", "on level 4 of Tartarus") ∧
      parse_location "Xyz" = ("Xyz", "0", "at Xyz") :=
  ⟨rfl, rfl, rfl, rfl, rfl, rfl⟩

theorem location_phrase_fallback {location br branchlevel branch : String}
    (h : br ∉ knownBranchCodes) :
    location_phrase location br branchlevel branch = "at " ++ location := by
  have hsub : ∀ L : List String, (∀ x ∈ L, x ∈ knownBranchCodes) → br ∉ L :=
    fun _ hL hmem => h (hL _ hmem)
  unfold location_phrase
  rw [if_neg (hsub _ (by decide)), if_neg (hsub _ (by decide)),
    if_neg (hsub _ (by decide)), if_neg (hsub _ (by decide)),
    if_neg (hsub _ (by decide)), if_neg (hsub _ (by decide)),
    if_neg (hsub _ (by decide))]

/-- C7: the decoder is pure and total — `parse_location` is a total Lean
function returning a `(branch, level, phrase)` triple for every input; when
the input contains no `:` the level is `"0"`; and for every input whose
branch code lies outside the fixed branch set (the `BRANCH_NAMES` keys plus
`Salt`), the code passes through as its own branch name and the phrase
degrades to the fallback `"at <raw code>"` built from the raw input. -/
theorem c7_decoder_total_fallback (location : String) :
    (':' ∉ location.data → (parse_location location).2.1 = "0") ∧
      (branch_code location ∉ knownBranchCodes →
        (parse_location location).1 = branch_code location ∧
        (parse_location location).2.2 = "at " ++ location) := by
  constructor
  · intro h
    show branch_level location = "0"
    unfold branch_level
    rw [splitOnChar_of_not_mem h]
  · intro h
    have hlook : BRANCH_NAMES.lookup (branch_code location) = none :=
      lookup_eq_none_of_not_mem_keys fun hm =>
        h (by unfold knownBranchCodes; exact List.mem_append_left _ hm)
    refine ⟨?_, ?_⟩
    · show (BRANCH_NAMES.lookup (branch_code location)).getD (branch_code location) =
        branch_code location
      rw [hlook]
      rfl
    · show location_phrase location (branch_code location) (branch_level location)
        ((BRANCH_NAMES.lookup (branch_code location)).getD (branch_code location)) =
        "at " ++ location
      exact location_phrase_fallback h

/-- C7 witness: the unknown code `"Xyz"` exercises both hypotheses. -/
theorem c7_decoder_total_fallback_witness :
    (':' ∉ ("Xyz" : String).data ∧ branch_code "Xyz" ∉ knownBranchCodes) ∧
      (parse_location "Xyz").2.1 = "0" ∧
      (parse_location "Xyz").1 = branch_code "Xyz" ∧
      (parse_location "Xyz").2.2 = "at " ++ "Xyz" :=
  ⟨⟨by decide, by decide⟩,
    (c7_decoder_total_fallback "Xyz").1 (by decide),
    ((c7_decoder_total_fallback "Xyz").2 (by decide)).1,
    ((c7_decoder_total_fallback "Xyz").2 (by decide)).2⟩

/-! ## Servers and the EntryEnricher (src/lobbylist.py:15-35, 71-145, 201-213, 293-318) -/

/-- The `Server` namedtuple (src/lobbylist.py:15-16). -/
structure Server where
  name : String
  ws_url : String
  ws_proto : Nat
  base_url : String
deriving DecidableEq, Repr

/-- The `SERVERS` list (src/lobbylist.py:18-35). -/
def SERVERS : List Server := [
  ⟨"cao", "ws://crawl.akrasiac.org:8080/socket", 1, "http://crawl.akrasiac.org:8080/"⟩,
  ⟨"cbro", "ws://crawl.berotato.org:8080/socket", 1, "http://crawl.berotato.org:8080/"⟩,
  ⟨"cjr", "wss://crawl.jorgrun.rocks:8081/socket", 1, "https://crawl.jorgrun.rocks:8081/"⟩,
  ⟨"cpo", "wss://crawl.project357.org/socket", 2, "https://crawl.project357.org/"⟩,
  ⟨"cue", "ws://www.underhound.eu:8080/socket", 1, "http://underhound.eu:8080/"⟩,
  ⟨"cwz", "ws://webzook.net:8080/socket", 1, "http://webzook.net:8080/"⟩,
  ⟨"cxc", "ws://crawl.xtahua.com:8080/socket", 1, "http://crawl.xtahua.com:8080/"⟩,
  ⟨"lld", "ws://lazy-life.ddo.jp:8080/socket", 1, "http://lazy-life.ddo.jp:8080/"⟩]

/-- The `SPECIES_NAMES` dict (src/lobbylist.py:71-110). -/
def SPECIES_NAMES : List (String × String) := [
  ("Ba", "Barachian"), ("Mf", "Merfolk"), ("Ke", "Kenku"), ("MD", "Mountain Dwarf"),
  ("Og", "Ogre"), ("Na", "Naga"), ("DD", "Deep Dwarf"), ("DE", "Deep Elf"),
  ("Tr", "Troll"), ("Mu", "Mummy"), ("GE", "Grey Elf"), ("VS", "Vine Stalker"),
  ("HO", "Hill Orc"), ("Sp", "Spriggan"), ("Te", "Tengu"), ("HD", "Hill Dwarf"),
  ("HE", "High Elf"), ("El", "Elf"), ("OM", "Ogre-Mage"), ("Dj", "Djinni"),
  ("Gr", "Gargoyle"), ("Ko", "Kobold"), ("Dg", "Demigod"), ("Gh", "Ghoul"),
  ("Fo", "Formicid"), ("Ce", "Centaur"), ("Hu", "Human"), ("Vp", "Vampire"),
  ("Op", "Octopode"), ("Mi", "Minotaur"), ("Pl", "Plutonian"), ("LO", "Lava Orc"),
  ("Gn", "Gnome"), ("Ha", "Halfling"), ("Dr", "Draconian"), ("Ds", "Demonspawn"),
  ("SE", "Sludge Elf"), ("Fe", "Felid")]

/-- The `BACKGROUND_NAMES` dict (src/lobbylist.py:111-145). -/
def BACKGROUND_NAMES : List (String × String) := [
  ("Pr", "Priest"), ("CK", "Chaos Knight"), ("AE", "Air Elementalist"),
  ("DK", "Death Knight"), ("Cj", "Conjurer"), ("EE", "Earth Elementalist"),
  ("Mo", "Monk"), ("AM", "Arcane Marksman"), ("Ne", "Necromancer"),
  ("Su", "Summoner"), ("VM", "Venom Mage"), ("Sk", "Skald"), ("Re", "Reaver"),
  ("Pa", "Paladin"), ("FE", "Fire Elementalist"), ("Th", "Thief"),
  ("Cr", "Crusader"), ("St", "Stalker"), ("IE", "Ice Elementalist"),
  ("Be", "Berserker"), ("En", "Enchanter"), ("Wn", "Wanderer"), ("Jr", "Jester"),
  ("Hu", "Hunter"), ("AK", "Abyssal Knight"), ("As", "Assassin"),
  ("Ar", "Artificer"), ("Wr", "Warper"), ("Fi", "Fighter"), ("Gl", "Gladiator"),
  ("Tm", "Transmuter"), ("Wz", "Wizard"), ("He", "Healer")]

/-- `LobbyList.watchlink` (src/lobbylist.py:209-213). -/
def watchlink (protocol_version : Nat) (base_url username : String) : String :=
  if protocol_version = 1 then base_url ++ "#watch-" ++ username
  else base_url ++ "watch/" ++ username

/-- A raw lobby entry as delivered by the feed: only the keys the
enrichment loop reads are modelled; optional keys are `Option`, mirroring
a dict in which the key may be absent. -/
structure RawEntry where
  username : String
  idle_time : Option Int
  place : Option String
  char : Option String
deriving DecidableEq, Repr

/-- A fully enriched entry, one per field the loop writes
(src/lobbylist.py:303-314): derived fields that the loop writes only
conditionally are `Option`. -/
structure Entry where
  username : String
  idle_time : Int
  place : Option String
  char : Option String
  server : String
  watchlink : String
  idle : Bool
  branch : Option String
  branchlevel : Option String
  place_human_readable : Option String
  species : Option String
  background : Option String
deriving DecidableEq, Repr

/-- The body of the enrichment loop in `update_lobby_data`
(src/lobbylist.py:303-314) for one entry.  `entry['idle_time']` is read
unconditionally (line 306), so a raw entry without `idle_time` raises
`KeyError` — modelled as `none`.  `place` and `char` are guarded by
`'place' in entry` / `'char' in entry`, so their derived fields are simply
omitted when absent.  `entry['char'][:2]` and `[2:]` are code-point
slices. -/
def enrich_entry (server_abbr : String) (protocol_version : Nat) (base_url : String)
    (e : RawEntry) : Option Entry :=
  match e.idle_time with
  | none => none
  | some it =>
    some {
      username := e.username
      idle_time := it
      place := e.place
      char := e.char
      server := server_abbr
      watchlink := watchlink protocol_version base_url e.username
      idle := it != 0
      branch := e.place.map fun p => (parse_location p).1
      branchlevel := e.place.map fun p => (parse_location p).2.1
      place_human_readable := e.place.map fun p => (parse_location p).2.2
      species := e.char.map fun c =>
        (SPECIES_NAMES.lookup (String.mk (c.data.take 2))).getD (String.mk (c.data.take 2))
      background := e.char.map fun c =>
        (BACKGROUND_NAMES.lookup (String.mk (c.data.drop 2))).getD (String.mk (c.data.drop 2)) }

/-- The whole enrichment loop over a batch: a `KeyError` on any entry
aborts the batch (the loop is not inside the `try` of
`update_lobby_data`, so the exception propagates and `update_database`
is never reached). -/
def enrich_batch (server_abbr : String) (protocol_version : Nat) (base_url : String) :
    List RawEntry → Option (List Entry)
  | [] => some []
  | e :: rest =>
    match enrich_entry server_abbr protocol_version base_url e with
    | none => none
    | some e' =>
      match enrich_batch server_abbr protocol_version base_url rest with
      | none => none
      | some rest' => some (e' :: rest')

/-- C5 counterexample: a raw entry with no `idle_time` makes the
enrichment fail (`KeyError` from the unconditional
`entry['idle_time']` read), and its presence anywhere in a batch aborts
the whole batch — even when every other entry is fine — contradicting
the claim that a missing optional field merely omits the derived field
and never aborts the batch. -/
theorem c5_missing_idle_time_aborts :
    enrich_entry "cao" 1 "http://crawl.akrasiac.org:8080/"
        ⟨"bob", none, none, none⟩ = none ∧
      enrich_batch "cao" 1 "http://crawl.akrasiac.org:8080/"
        [⟨"bob", none, none, none⟩, ⟨"ann", some 0, none, none⟩] = none :=
  ⟨rfl, rfl⟩

/-- C5 (amended): enrichment is defensive for `place` and `char` — if
either is absent the corresponding derived fields are omitted and no
failure occurs, and `idle = (idle_time != 0)` — but `idle_time` is
required: it is read unconditionally, so enrichment is total only on
entries that carry `idle_time`, and a batch of such entries always
enriches completely, preserving length. -/
theorem c5_enrichment_defensive (server_abbr : String) (protocol_version : Nat)
    (base_url : String) (e : RawEntry) (it : Int) (batch : List RawEntry)
    (hit : e.idle_time = some it) (hbatch : ∀ x ∈ batch, x.idle_time ≠ none) :
    (∃ e', enrich_entry server_abbr protocol_version base_url e = some e' ∧
        e'.idle = (it != 0) ∧
        (e.place = none → e'.branch = none ∧ e'.branchlevel = none ∧
          e'.place_human_readable = none) ∧
        (e.char = none → e'.species = none ∧ e'.background = none)) ∧
      ∃ l, enrich_batch server_abbr protocol_version base_url batch = some l ∧
        l.length = batch.length := by
  constructor
  · refine ⟨_, by rw [enrich_entry, hit], rfl, ?_, ?_⟩
    · intro hp
      simp [hp]
    · intro hc
      simp [hc]
  · induction batch with
    | nil => exact ⟨[], rfl, rfl⟩
    | cons x rest ih =>
      have hx := hbatch x (List.mem_cons_self x rest)
      rcases hx2 : x.idle_time with _ | it2
      · exact absurd hx2 hx
      · rcases ih (fun y hy => hbatch y (List.mem_cons_of_mem x hy)) with ⟨l, hl, hlen⟩
        rcases hxe : enrich_entry server_abbr protocol_version base_url x with _ | xe
        · rw [enrich_entry, hx2] at hxe
          simp at hxe
        · refine ⟨xe :: l, ?_, by simp [hlen]⟩
          rw [enrich_batch, hxe, hl]

/-- C5 witness: concrete entries lacking `place` and `char` but carrying
`idle_time` enrich fine. -/
theorem c5_enrichment_defensive_witness :
    ((⟨"bob", some 5, none, none⟩ : RawEntry).idle_time = some 5 ∧
        ∀ x ∈ [(⟨"ann", some 0, none, none⟩ : RawEntry)], x.idle_time ≠ none) ∧
      (∃ e', enrich_entry "cao" 1 "http://crawl.akrasiac.org:8080/"
            ⟨"bob", some 5, none, none⟩ = some e' ∧
          e'.idle = ((5 : Int) != 0) ∧
          ((⟨"bob", some 5, none, none⟩ : RawEntry).place = none →
            e'.branch = none ∧ e'.branchlevel = none ∧
            e'.place_human_readable = none) ∧
          ((⟨"bob", some 5, none, none⟩ : RawEntry).char = none →
            e'.species = none ∧ e'.background = none)) ∧
      ∃ l, enrich_batch "cao" 1 "http://crawl.akrasiac.org:8080/"
          [⟨"ann", some 0, none, none⟩] = some l ∧
        l.length = [(⟨"ann", some 0, none, none⟩ : RawEntry)].length :=
  ⟨⟨rfl, by decide⟩,
    c5_enrichment_defensive "cao" 1 "http://crawl.akrasiac.org:8080/"
      ⟨"bob", some 5, none, none⟩ 5 [⟨"ann", some 0, none, none⟩] rfl (by decide)⟩

/-! ## ConnectionSupervisor read loop: `LobbyList.get_lobby_entries`
(src/lobbylist.py:225-242) -/

/-- Result of one run of the read loop. -/
inductive ReadResult (ρ : Type) where
  | entries (l : ρ)
  | abortedEmpty
  | starved
deriving DecidableEq, Repr

/-- `LobbyList.get_lobby_entries` (src/lobbylist.py:225-242), driven by a
feed script: the list of batches successive `read()` calls deliver.
Message handling (`handle_message`) and the lobby state live in the
external `webtiles` library, so the state type `σ`, the handler, and the
`lobby_entries` / `lobby_complete` accessors are parameters.  Each
iteration takes the next batch; an empty batch hits the
`if not messages: print(...); break` arm (lines 231-234), after which the
function falls off the `while` loop and returns Python `None` — modelled
as `.abortedEmpty`.  Otherwise every message is handled; under protocol 1
with the lobby still incomplete the loop continues, else it returns the
accumulated entries.  An exhausted script means the real loop would block
in `read()` forever — `.starved`. -/
def get_lobby_entries {σ μ ρ : Type} (protocol_version : Nat)
    (handle_message : σ → μ → σ) (lobby_entries : σ → ρ) (lobby_complete : σ → Bool)
    (st : σ) : List (List μ) → ReadResult ρ
  | [] => .starved
  | batch :: rest =>
    if batch.isEmpty then .abortedEmpty
    else
      let st' := batch.foldl handle_message st
      if protocol_version = 1 ∧ ¬(lobby_complete st' = true) then
        get_lobby_entries protocol_version handle_message lobby_entries lobby_complete st' rest
      else .entries (lobby_entries st')

/-- C9: an empty receive makes the read loop `break` and return `None`,
no matter how much data the feed still holds — the loop does *not*
restart (first conjunct, for every protocol, handler, state, and
remaining feed).  The concrete instances show the divergence: the same
one-batch feed read after the empty receive would have produced the
lobby entries, but the empty receive aborts first; the caller
`update_lobby_data` then iterates over the returned `None`
(src/lobbylist.py:303) and dies with a `TypeError`, killing that
server's update task for good. -/
theorem c9_empty_receive_aborts :
    (∀ {σ μ ρ : Type} (protocol_version : Nat) (handle_message : σ → μ → σ)
      (lobby_entries : σ → ρ) (lobby_complete : σ → Bool) (st : σ)
      (rest : List (List μ)),
      get_lobby_entries protocol_version handle_message lobby_entries lobby_complete st
        ([] :: rest) = .abortedEmpty) ∧
      get_lobby_entries 1 (fun (s : List Nat) (m : Nat) => s ++ [m]) id
        (fun _ => true) [] [[1, 2]] = .entries [1, 2] ∧
      get_lobby_entries 1 (fun (s : List Nat) (m : Nat) => s ++ [m]) id
        (fun _ => true) [] [[], [1, 2]] = .abortedEmpty := by
  refine ⟨fun _ _ _ _ _ _ => rfl, by decide, by decide⟩

/-! ## ApiServer: `game_info` and the `/gameinfo` route
(src/lobbylist.py:322-329, 359-379) -/

/-- Server resolution in `game_info` (src/lobbylist.py:323-326):
`server = [s for s in SERVERS if s.name == server_abbr]`, `None` when the
list comes up empty, else its first element. -/
def resolveServer (server_abbr : String) : Option Server :=
  (SERVERS.filter fun s => s.name == server_abbr).head?

/-- The `game_info` coroutine (src/lobbylist.py:322-329): `None` for an
unresolvable server abbreviation, otherwise the watcher's player message.
The watcher talks to the network, so its result is an oracle `probe`. -/
def game_info {δ : Type} (probe : Server → String → δ) (server_abbr player : String) :
    Option δ :=
  match resolveServer server_abbr with
  | none => none
  | some srv => some (probe srv player)

/-- Outcome of one HTTP request: status plus JSON body for the 200 case
(`none` serializes as JSON `null`). -/
inductive HttpOutcome (δ : Type) where
  | badRequest
  | notFound
  | ok (body : Option δ)
deriving DecidableEq, Repr

/-- `ApiRequestHandler.game_info` (src/lobbylist.py:359-379):
400 when `args.get('player')` or `args.get('server')` is falsy (the
parameter is absent — `parse_qs` drops blank values); 404 when no
`DATABASE` entry has the requested username; otherwise status 200 with
the serialized `game_info` result, which is `null` for an unresolvable
server.  The requested server string itself is never validated here. -/
def game_info_route {δ : Type} (playerArg serverArg : Option String)
    (db : List GEntry) (probe : Server → String → δ) : HttpOutcome δ :=
  match playerArg, serverArg with
  | some player, some server =>
    if (db.filter fun g => g.username == player).isEmpty then .notFound
    else .ok (game_info probe server player)
  | _, _ => .badRequest

theorem game_info_eq_map {δ : Type} (probe : Server → String → δ)
    (server_abbr player : String) :
    game_info probe server_abbr player =
      (resolveServer server_abbr).map fun srv => probe srv player := by
  unfold game_info
  cases resolveServer server_abbr <;> rfl

/-- C8 counterexample: with `player` listed in the aggregate but a
`server` value resolving to no configured server, the handler answers
200 with JSON body `null` — not 404 as claimed: `game_info` returns
`None` for the unknown server and the handler serializes it under the
already-chosen 200 status. -/
theorem c8_unknown_server_not_404 :
    resolveServer "nosuch" = none ∧
      game_info_route (some "bob") (some "nosuch") [(⟨"bob", "cao", []⟩ : GEntry)]
        (fun _ _ => ()) = .ok none ∧
      (HttpOutcome.ok (none : Option Unit)) ≠ .notFound :=
  ⟨rfl, rfl, by decide⟩

/-- C8 (amended): for every `/gameinfo` request — if `player` or `server`
is missing the status is 400; if both are present and `player` appears
in no aggregate entry the status is 404; but when `player` passes that
check the status is 200 regardless of `server`: the body is the probe
result when `server` resolves and JSON `null` when it does not.  The
claimed 404 for an unresolvable `server` does not exist in the code. -/
theorem c8_gameinfo_statuses {δ : Type} (playerArg serverArg : Option String)
    (db : List GEntry) (probe : Server → String → δ) :
    ((playerArg = none ∨ serverArg = none) →
      game_info_route playerArg serverArg db probe = .badRequest) ∧
      (∀ player server, playerArg = some player → serverArg = some server →
        (((db.filter fun g => g.username == player).isEmpty →
            game_info_route playerArg serverArg db probe = .notFound) ∧
          (¬(db.filter fun g => g.username == player).isEmpty →
            game_info_route playerArg serverArg db probe =
              .ok ((resolveServer server).map fun srv => probe srv player)))) := by
  constructor
  · intro h
    cases playerArg with
    | none => rfl
    | some p =>
      cases serverArg with
      | none => rfl
      | some s =>
        rcases h with h | h <;> exact absurd h (by simp)
  · intro player server hp hs
    subst hp
    subst hs
    constructor
    · intro he
      simp only [game_info_route, he, if_true]
    · intro hne
      show (if (db.filter fun g => g.username == player).isEmpty then HttpOutcome.notFound
        else .ok (game_info probe server player)) = _
      rw [if_neg hne, game_info_eq_map]

/-- C8 witness: the three branches at concrete requests over a
one-entry aggregate. -/
theorem c8_gameinfo_statuses_witness :
    game_info_route (some "bob") none [(⟨"bob", "cao", []⟩ : GEntry)]
        (fun _ _ => ()) = .badRequest ∧
      game_info_route (some "zed") (some "cao") [(⟨"bob", "cao", []⟩ : GEntry)]
        (fun _ _ => ()) = .notFound ∧
      game_info_route (some "bob") (some "cao") [(⟨"bob", "cao", []⟩ : GEntry)]
        (fun _ _ => ()) =
        .ok ((resolveServer "cao").map fun srv => (fun _ _ => ()) srv "bob") :=
  ⟨(c8_gameinfo_statuses (some "bob") none [⟨"bob", "cao", []⟩] fun _ _ => ()).1
      (Or.inr rfl),
    ((c8_gameinfo_statuses (some "zed") (some "cao") [⟨"bob", "cao", []⟩]
        fun _ _ => ()).2 "zed" "cao" rfl rfl).1 (by decide),
    ((c8_gameinfo_statuses (some "bob") (some "cao") [⟨"bob", "cao", []⟩]
        fun _ _ => ()).2 "bob" "cao" rfl rfl).2 (by decide)⟩

/-- C10: with both parameters present, the 404-versus-proceed decision of
`/gameinfo` depends only on the `player` value and the usernames in the
aggregate: requests differing only in `server` get the same decision
(first conjunct), the decision is exactly the username scan (second), and
once a player passes — because some entry anywhere carries that username —
the probe is issued against the *requested* server, whatever server the
matching entry belongs to (third). -/
theorem c10_gameinfo_server_independent {δ : Type} (player s1 s2 : String)
    (db : List GEntry) (probe : Server → String → δ) :
    ((game_info_route (some player) (some s1) db probe = .notFound) ↔
        (game_info_route (some player) (some s2) db probe = .notFound)) ∧
      ((game_info_route (some player) (some s1) db probe = .notFound) ↔
        (db.filter fun g => g.username == player).isEmpty) ∧
      (¬(db.filter fun g => g.username == player).isEmpty →
        game_info_route (some player) (some s1) db probe =
          .ok ((resolveServer s1).map fun srv => probe srv player)) := by
  have hiff : ∀ s : String, (game_info_route (some player) (some s) db probe = .notFound) ↔
      (db.filter fun g => g.username == player).isEmpty := by
    intro s
    by_cases he : (db.filter fun g => g.username == player).isEmpty
    · simp [game_info_route, he]
    · simp only [game_info_route]
      rw [if_neg he]
      simp [he]
  refine ⟨(hiff s1).trans (hiff s2).symm, hiff s1, ?_⟩
  intro hne
  show (if (db.filter fun g => g.username == player).isEmpty then HttpOutcome.notFound
    else .ok (game_info probe s1 player)) = _
  rw [if_neg hne, game_info_eq_map]

/-- C10 witness: `bob` is listed only on `cao`, yet the decision is the
same for requested servers `cbro` and `lld`, and the probe targets the
requested server. -/
theorem c10_gameinfo_server_independent_witness :
    ((game_info_route (some "bob") (some "cbro") [(⟨"bob", "cao", []⟩ : GEntry)]
          (fun _ _ => ()) = .notFound) ↔
        (game_info_route (some "bob") (some "lld") [(⟨"bob", "cao", []⟩ : GEntry)]
          (fun _ _ => ()) = .notFound)) ∧
      ((game_info_route (some "bob") (some "cbro") [(⟨"bob", "cao", []⟩ : GEntry)]
          (fun _ _ => ()) = .notFound) ↔
        (([(⟨"bob", "cao", []⟩ : GEntry)].filter fun g => g.username == "bob").isEmpty)) ∧
      ¬(([(⟨"bob", "cao", []⟩ : GEntry)].filter fun g => g.username == "bob").isEmpty) ∧
      game_info_route (some "bob") (some "cbro") [(⟨"bob", "cao", []⟩ : GEntry)]
          (fun _ _ => ()) =
        .ok ((resolveServer "cbro").map fun srv => (fun _ _ => ()) srv "bob") :=
  ⟨(c10_gameinfo_server_independent "bob" "cbro" "lld" [⟨"bob", "cao", []⟩]
      fun _ _ => ()).1,
    (c10_gameinfo_server_independent "bob" "cbro" "lld" [⟨"bob", "cao", []⟩]
      fun _ _ => ()).2.1,
    by decide,
    (c10_gameinfo_server_independent "bob" "cbro" "lld" [⟨"bob", "cao", []⟩]
      fun _ _ => ()).2.2 (by decide)⟩

end LobbyList
